import Mathlib

/-!
Shallow embedding of `update_osm_cameras.py`.

The script fetches OSM speed-camera nodes per country bounding box,
normalizes them to a camera schema, deduplicates by identifier, and writes
one JSON file per country.  We embed the pure data flow of `main` and the
retry/backoff control flow of `fetch_bbox`:

* Python dict access `node.get(k)` on possibly-missing keys is modelled with
  `Option` fields; `node.get("tags", {})` becomes `Option.getD _ []`.
* A Python dict used as a mapping is modelled as an association list with
  insertion-order semantics: assigning to an existing key keeps its
  position and replaces the value, assigning a fresh key appends it.
* Network effects are abstracted by a stream of per-attempt outcomes
  (`AttemptResult`), and filesystem writes by a `writeOk` oracle saying
  whether a given path can be written; the loop body records each
  country's outcome instead of performing I/O.
-/

namespace OsmCameras

/-- `CONF_FIXED = 80` from the script's configuration block. -/
def CONF_FIXED : Nat := 80

/-- `CONF_MOBILE_POSSIBLE = 60` from the script's configuration block. -/
def CONF_MOBILE_POSSIBLE : Nat := 60

/-- `OUTPUT_DIR = "docs"`. -/
def OUTPUT_DIR : String := "docs"

/-- One raw Overpass element (`node` in the script).  Each field models a
Python dict entry that may be absent, hence `Option`.  Tag mappings are
association lists of string pairs. -/
structure RawElement where
  id : Option Int
  lat : Option Rat
  lon : Option Rat
  tags : Option (List (String × String))
deriving DecidableEq

/-- The normalized camera record built at lines 128-134 of the script. -/
structure Camera where
  id : String
  lat : Option Rat
  lon : Option Rat
  type : String
  confidence : Nat
deriving DecidableEq

/-- A parsed Overpass response body; `elements` may be absent
(`data.get("elements", [])`). -/
structure Response where
  elements : Option (List RawElement)
deriving DecidableEq

/-- Python `f"osm-{node.get('id')}"` renders a missing id as the string
`"None"` and an integer as its decimal representation. -/
def pyStrOptInt : Option Int → String
  | some n => toString n
  | none => "None"

/-- `tags.get(k)`: first value stored under key `k` in the tag mapping. -/
def tagGet (tags : List (String × String)) (k : String) : Option String :=
  (tags.find? (fun p => decide (p.1 = k))).map Prod.snd

/-- Lines 119-134 of `main`: classify one raw element and build a `Camera`.
`highway=speed_camera` gives `fixed_camera`/`CONF_FIXED`; everything else
gives `mobile_possible_camera`/`CONF_MOBILE_POSSIBLE`.  The identifier is
`"osm-"` followed by the raw id; coordinates are copied verbatim. -/
def normalizeElement (node : RawElement) : Camera :=
  if tagGet (node.tags.getD []) "highway" = some "speed_camera" then
    { id := "osm-" ++ pyStrOptInt node.id, lat := node.lat, lon := node.lon,
      type := "fixed_camera", confidence := CONF_FIXED }
  else
    { id := "osm-" ++ pyStrOptInt node.id, lat := node.lat, lon := node.lon,
      type := "mobile_possible_camera", confidence := CONF_MOBILE_POSSIBLE }

/-- The per-response loop `for node in data.get("elements", [])`. -/
def extractCameras (r : Response) : List Camera :=
  (r.elements.getD []).map normalizeElement

/-- The accumulation of `all_results` across a country's bounding boxes:
a failed fetch (`none`) is skipped, a successful one contributes its
normalized elements in order. -/
def all_results (fetches : List (Option Response)) : List Camera :=
  (fetches.filterMap id).flatMap extractCameras

/-- Python dict assignment `d[k] = v` on an insertion-ordered dict:
replace the value at the first entry holding `k` (keeping its position),
or append `(k, v)` when `k` is absent. -/
def dictInsert : List (String × Camera) → String → Camera → List (String × Camera)
  | [], k, v => [(k, v)]
  | p :: d, k, v => if p.1 = k then (k, v) :: d else p :: dictInsert d k v

/-- The dict comprehension `{cam["id"]: cam for cam in all_results if cam.get("id")}`
(line 138): left-to-right insertion, skipping cameras whose id is falsy
(the empty string). -/
def dedupDict (cams : List Camera) : List (String × Camera) :=
  cams.foldl (fun d cam => if cam.id = "" then d else dictInsert d cam.id cam) []

/-- `.values()` of the deduplication dict: the `unique_results` of line 138. -/
def unique_results (cams : List Camera) : List Camera :=
  (dedupDict cams).map Prod.snd

/-- `os.path.basename` for POSIX paths: the part after the last `/`. -/
def basenameAux : List Char → List Char → List Char
  | [], acc => acc
  | c :: cs, acc => if c = '/' then basenameAux cs [] else basenameAux cs (acc ++ [c])

/-- `os.path.basename` on a path string. -/
def basename (p : String) : String :=
  String.mk (basenameAux p.data [])

/-- Lines 141-145: the per-country output filename.  `"uk"` keeps the
legacy name `docs/osm_cameras.json`; every other code `cc` gets
`docs/cc_osm_cameras.json`. -/
def output_file (cc : String) : String :=
  if cc = "uk" then OUTPUT_DIR ++ "/" ++ "osm_cameras.json"
  else OUTPUT_DIR ++ "/" ++ (cc ++ "_osm_cameras.json")

/-- What the body of the per-country loop did for one country: refused by
the safety guard, wrote a file with the given results, or hit a write
error on the given file (caught at lines 157-158). -/
inductive Outcome where
  | refused : Outcome
  | written : String → List Camera → Outcome
  | writeError : String → Outcome
deriving DecidableEq

/-- Lines 137-158 for one country `cc` whose bounding-box fetches returned
`fetches`: deduplicate, choose the filename, apply the safety guard, and
attempt the write (success decided by the `writeOk` oracle; a failure is
caught and recorded, not raised). -/
def processCountry (writeOk : String → Bool) (cc : String)
    (fetches : List (Option Response)) : Outcome :=
  if basename (output_file cc) = "osm_cameras.json" ∧ cc ≠ "uk" then
    Outcome.refused
  else if writeOk (output_file cc) then
    Outcome.written (output_file cc) (unique_results (all_results fetches))
  else
    Outcome.writeError (output_file cc)

/-- The `for cc, bboxes in country_bboxes.items()` loop: each country is
processed independently and the loop never aborts early. -/
def runCountries (writeOk : String → Bool)
    (countries : List (String × List (Option Response))) : List Outcome :=
  countries.map (fun c => processCountry writeOk c.1 c.2)

/-- The file a country's loop iteration tried to write, if any. -/
def writesTo : Outcome → Option String
  | Outcome.refused => none
  | Outcome.written f _ => some f
  | Outcome.writeError f => some f

/-- How one HTTP attempt inside `fetch_bbox` resolves: a parsed JSON body,
a 429, a 5xx, or a raised `RequestException` (connection error, timeout,
or `raise_for_status` on another non-2xx code). -/
inductive AttemptResult where
  | success : Response → AttemptResult
  | rateLimited : AttemptResult
  | serverError : AttemptResult
  | requestError : AttemptResult
deriving DecidableEq

/-- `backoff = min(backoff * 2, 300)`. -/
def nextBackoff (b : Nat) : Nat := min (b * 2) 300

/-- Observable trace of one `fetch_bbox` call: its return value, the sleep
durations performed (in order), and how many attempts were made. -/
structure FetchTrace where
  result : Option Response
  sleeps : List Nat
  attemptsMade : Nat
deriving DecidableEq

/-- The retry loop of `fetch_bbox` (lines 65-89).  `o` gives the outcome of
each attempt (indexed from 1), `fuel` is the number of attempts still
allowed, `backoff` the current backoff.  On 429/5xx the loop always sleeps
and retries; on a `RequestException` it sleeps and retries only when
attempts remain, otherwise it gives up without sleeping. -/
def fetchGo (o : Nat → AttemptResult) : Nat → Nat → Nat → FetchTrace
  | 0, _, _ => ⟨none, [], 0⟩
  | fuel + 1, i, backoff =>
    match o i with
    | AttemptResult.success r => ⟨some r, [], 1⟩
    | AttemptResult.rateLimited =>
      let t := fetchGo o fuel (i + 1) (nextBackoff backoff)
      ⟨t.result, backoff :: t.sleeps, t.attemptsMade + 1⟩
    | AttemptResult.serverError =>
      let t := fetchGo o fuel (i + 1) (nextBackoff backoff)
      ⟨t.result, backoff :: t.sleeps, t.attemptsMade + 1⟩
    | AttemptResult.requestError =>
      if fuel = 0 then ⟨none, [], 1⟩
      else
        let t := fetchGo o fuel (i + 1) (nextBackoff backoff)
        ⟨t.result, backoff :: t.sleeps, t.attemptsMade + 1⟩

/-- `fetch_bbox` with its default parameters `attempts=8, initial_backoff=5`. -/
def fetch_bbox (o : Nat → AttemptResult) : FetchTrace :=
  fetchGo o 8 1 5

/-! ### Helper lemmas -/

theorem tagGet_fixed_or_not (node : RawElement) :
    normalizeElement node =
      if tagGet (node.tags.getD []) "highway" = some "speed_camera" then
        { id := "osm-" ++ pyStrOptInt node.id, lat := node.lat, lon := node.lon,
          type := "fixed_camera", confidence := CONF_FIXED }
      else
        { id := "osm-" ++ pyStrOptInt node.id, lat := node.lat, lon := node.lon,
          type := "mobile_possible_camera", confidence := CONF_MOBILE_POSSIBLE } := rfl

theorem osm_append_ne_empty (s : String) : "osm-" ++ s ≠ "" := by
  obtain ⟨l⟩ := s
  intro h
  have hd : ("osm-" ++ String.mk l).data = "".data := congrArg String.data h
  simp [String.append] at hd

end OsmCameras

namespace OsmCameras

/-! ### C1: the Record Normalizer -/

/-- C1: for every raw element, the normalizer yields category
`fixed_camera` with confidence 80 exactly when the tag mapping holds
`highway=speed_camera`, and `mobile_possible_camera` with confidence 60
otherwise; the identifier is `"osm-"` followed by the raw identifier's
rendering, and latitude/longitude are copied verbatim (a missing
coordinate stays `none`). -/
theorem C1_normalizer (e : RawElement) :
    (((normalizeElement e).type = "fixed_camera" ∧ (normalizeElement e).confidence = 80) ↔
      tagGet (e.tags.getD []) "highway" = some "speed_camera") ∧
    (tagGet (e.tags.getD []) "highway" ≠ some "speed_camera" →
      (normalizeElement e).type = "mobile_possible_camera" ∧
        (normalizeElement e).confidence = 60) ∧
    (normalizeElement e).id = "osm-" ++ pyStrOptInt e.id ∧
    (normalizeElement e).lat = e.lat ∧ (normalizeElement e).lon = e.lon := by
  by_cases h : tagGet (e.tags.getD []) "highway" = some "speed_camera" <;>
    simp [normalizeElement, h, CONF_FIXED, CONF_MOBILE_POSSIBLE]

/-- Witness for C1 at a concrete radar-tagged element. -/
theorem C1_normalizer_witness :
    (normalizeElement ⟨some 7, some 51, none, some [("radar", "yes")]⟩).type =
        "mobile_possible_camera" ∧
      (normalizeElement ⟨some 7, some 51, none, some [("radar", "yes")]⟩).confidence = 60 :=
  (C1_normalizer ⟨some 7, some 51, none, some [("radar", "yes")]⟩).2.1 (by decide)

/-! ### C4: the output-filename mapping -/

/-- C4: the filename mapping is a deterministic function of the country
code: `"uk"` maps to `docs/osm_cameras.json`, every other code `cc` maps
to `docs/cc_osm_cameras.json`, and repeated applications agree. -/
theorem C4_output_file :
    output_file "uk" = "docs/osm_cameras.json" ∧
    (∀ cc : String, cc ≠ "uk" → output_file cc = "docs/" ++ cc ++ "_osm_cameras.json") ∧
    (∀ cc : String, output_file cc = output_file cc) := by
  refine ⟨by decide, fun cc h => ?_, fun cc => rfl⟩
  simp only [output_file, if_neg h, OUTPUT_DIR]
  rw [show "docs" ++ "/" = "docs/" from rfl, ← String.append_assoc]

/-- Witness for C4 at the concrete country code `"fr"`. -/
theorem C4_output_file_witness :
    output_file "fr" = "docs/" ++ "fr" ++ "_osm_cameras.json" :=
  C4_output_file.2.1 "fr" (by decide)

/-! ### C3: the legacy-file safety guard -/

/-- C3: a country code other than `"uk"` never writes (nor even attempts
to write) `docs/osm_cameras.json`; and whenever the computed filename's
basename equals the legacy basename while the code is not `"uk"`, the
iteration is refused. -/
theorem C3_safety_guard (cc : String) (h : cc ≠ "uk") (writeOk : String → Bool)
    (fetches : List (Option Response)) :
    writesTo (processCountry writeOk cc fetches) ≠ some "docs/osm_cameras.json" ∧
    (basename (output_file cc) = "osm_cameras.json" →
      processCountry writeOk cc fetches = Outcome.refused) := by
  constructor
  · by_cases hb : basename (output_file cc) = "osm_cameras.json"
    · simp [processCountry, hb, h, writesTo]
    · intro hcontra
      apply hb
      by_cases hw : writeOk (output_file cc) = true <;>
        simp [processCountry, hb, h, hw, writesTo] at hcontra <;>
          rw [hcontra] <;> decide
  · intro hb
    simp [processCountry, hb, h]

/-- Witness for C3 at the concrete non-uk country code `"fr"`. -/
theorem C3_safety_guard_witness :
    writesTo (processCountry (fun _ => true) "fr" []) ≠ some "docs/osm_cameras.json" :=
  (C3_safety_guard "fr" (by decide) (fun _ => true) []).1

/-! ### C7: a file is written even when the result set is empty -/

theorem all_results_of_all_none (fetches : List (Option Response))
    (hf : ∀ x ∈ fetches, x = none) : all_results fetches = [] := by
  have : fetches.filterMap id = [] := by
    induction fetches with
    | nil => rfl
    | cons a l ih =>
      have ha : a = none := hf a (List.mem_cons_self a l)
      simp [ha, List.filterMap_cons, ih fun x hx => hf x (List.mem_cons_of_mem a hx)]
  simp [all_results, this]

/-- C7: every country whose filename passes the safety guard gets its file
written whenever the filesystem permits, with exactly the deduplicated
results as content; in particular for `"uk"`, when every bounding-box
fetch fails, `docs/osm_cameras.json` is still written and its result list
is empty. -/
theorem C7_always_write :
    (∀ (writeOk : String → Bool) (cc : String) (fetches : List (Option Response)),
      ¬(basename (output_file cc) = "osm_cameras.json" ∧ cc ≠ "uk") →
      writeOk (output_file cc) = true →
      processCountry writeOk cc fetches =
        Outcome.written (output_file cc) (unique_results (all_results fetches))) ∧
    (∀ (writeOk : String → Bool) (fetches : List (Option Response)),
      writeOk "docs/osm_cameras.json" = true →
      (∀ x ∈ fetches, x = none) →
      processCountry writeOk "uk" fetches = Outcome.written "docs/osm_cameras.json" []) := by
  have h1 : ∀ (writeOk : String → Bool) (cc : String) (fetches : List (Option Response)),
      ¬(basename (output_file cc) = "osm_cameras.json" ∧ cc ≠ "uk") →
      writeOk (output_file cc) = true →
      processCountry writeOk cc fetches =
        Outcome.written (output_file cc) (unique_results (all_results fetches)) := by
    intro writeOk cc fetches hguard hw
    simp [processCountry, hguard, hw]
  refine ⟨h1, fun writeOk fetches hw hf => ?_⟩
  have huk : output_file "uk" = "docs/osm_cameras.json" := by decide
  have := h1 writeOk "uk" fetches (by decide) (by rw [huk]; exact hw)
  rw [this, huk, all_results_of_all_none fetches hf]
  rfl

/-- Witness for C7: `"uk"` with its four bounding-box fetches all failed
and a permissive filesystem still writes the empty legacy file. -/
theorem C7_always_write_witness :
    processCountry (fun _ => true) "uk" [none, none, none, none] =
      Outcome.written "docs/osm_cameras.json" [] :=
  C7_always_write.2 (fun _ => true) [none, none, none, none] rfl (by decide)

/-! ### C8: a write failure is contained to its own country -/

/-- C8: an I/O failure writing one country's file is recorded as that
country's outcome only; every country before and after it is processed
exactly as it would be on its own, so no single write failure terminates
the run. -/
theorem C8_write_failure_isolated (writeOk : String → Bool)
    (pre post : List (String × List (Option Response)))
    (cc : String) (fs : List (Option Response))
    (hguard : ¬(basename (output_file cc) = "osm_cameras.json" ∧ cc ≠ "uk"))
    (hfail : writeOk (output_file cc) = false) :
    runCountries writeOk (pre ++ (cc, fs) :: post) =
      runCountries writeOk pre ++
        Outcome.writeError (output_file cc) :: runCountries writeOk post := by
  have hmid : processCountry writeOk cc fs = Outcome.writeError (output_file cc) := by
    simp [processCountry, hguard, hfail]
  simp [runCountries, hmid]

/-- Witness for C8: a failing write for `"uk"` still leaves `"fr"`
processed afterwards. -/
theorem C8_write_failure_isolated_witness :
    runCountries (fun _ => false) ([] ++ ("uk", []) :: [("fr", [])]) =
      runCountries (fun _ => false) [] ++
        Outcome.writeError (output_file "uk") :: runCountries (fun _ => false) [("fr", [])] :=
  C8_write_failure_isolated (fun _ => false) [] [("fr", [])] "uk" [] (by decide) rfl

/-! ### C5: backoff monotonicity and the attempt cap -/

theorem nextBackoff_le (b : Nat) : nextBackoff b ≤ 300 :=
  min_le_right (b * 2) 300

theorem le_nextBackoff (b : Nat) (hb : b ≤ 300) : b ≤ nextBackoff b :=
  le_min (Nat.le_mul_of_pos_right b (by decide)) hb

theorem fetchGo_inv (o : Nat → AttemptResult) (fuel i b : Nat) (hb : b ≤ 300) :
    (∀ s ∈ (fetchGo o fuel i b).sleeps, b ≤ s ∧ s ≤ 300) ∧
    List.Chain' (· ≤ ·) (fetchGo o fuel i b).sleeps ∧
    (fetchGo o fuel i b).attemptsMade ≤ fuel := by
  induction fuel generalizing i b with
  | zero => simp [fetchGo]
  | succ fuel ih =>
    have hstep : ∀ t : FetchTrace,
        t = fetchGo o fuel (i + 1) (nextBackoff b) →
        (∀ s ∈ b :: t.sleeps, b ≤ s ∧ s ≤ 300) ∧
        List.Chain' (· ≤ ·) (b :: t.sleeps) ∧ t.attemptsMade + 1 ≤ fuel + 1 := by
      intro t ht
      obtain ⟨hmem, hchain, hcount⟩ := ih (i + 1) (nextBackoff b) (nextBackoff_le b)
      rw [← ht] at hmem hchain hcount
      refine ⟨?_, ?_, Nat.succ_le_succ hcount⟩
      · intro s hs
        rcases List.mem_cons.mp hs with hs | hs
        · exact ⟨hs ▸ le_refl b, hs ▸ hb⟩
        · exact ⟨le_trans (le_nextBackoff b hb) (hmem s hs).1, (hmem s hs).2⟩
      · refine List.chain'_cons'.mpr ⟨fun y hy => ?_, hchain⟩
        exact le_trans (le_nextBackoff b hb)
          (hmem y (List.mem_of_mem_head? hy)).1
    cases h : o i with
    | success r => simp [fetchGo, h]
    | rateLimited => simpa [fetchGo, h] using hstep _ rfl
    | serverError => simpa [fetchGo, h] using hstep _ rfl
    | requestError =>
      by_cases hf : fuel = 0
      · simp [fetchGo, h, hf]
      · simpa [fetchGo, h, hf] using hstep _ rfl

/-- C5: over any stream of attempt outcomes (in particular consecutive
429/5xx responses), the sleep durations of one `fetch_bbox` call are
nondecreasing, each is at most the 300-second cap, and at most 8 attempts
are made. -/
theorem C5_backoff_monotone (o : Nat → AttemptResult) :
    List.Chain' (· ≤ ·) (fetch_bbox o).sleeps ∧
    (∀ s ∈ (fetch_bbox o).sleeps, s ≤ 300) ∧
    (fetch_bbox o).attemptsMade ≤ 8 := by
  obtain ⟨hmem, hchain, hcount⟩ := fetchGo_inv o 8 1 5 (by decide)
  exact ⟨hchain, fun s hs => (hmem s hs).2, hcount⟩

/-- Witness for C5 on the all-rate-limited attempt stream, whose trace
contains the concrete sleep 300. -/
theorem C5_backoff_monotone_witness :
    List.Chain' (· ≤ ·) (fetch_bbox fun _ => AttemptResult.rateLimited).sleeps ∧
    (300 : Nat) ≤ 300 ∧
    (fetch_bbox fun _ => AttemptResult.rateLimited).attemptsMade ≤ 8 :=
  ⟨(C5_backoff_monotone fun _ => AttemptResult.rateLimited).1,
    (C5_backoff_monotone fun _ => AttemptResult.rateLimited).2.1 300 (by decide),
    (C5_backoff_monotone fun _ => AttemptResult.rateLimited).2.2⟩

/-! ### C6: exhaustion yields an explicit no-data signal, and the caller skips -/

theorem fetchGo_result_none (o : Nat → AttemptResult)
    (h : ∀ i r, o i ≠ AttemptResult.success r) :
    ∀ fuel i b, (fetchGo o fuel i b).result = none := by
  intro fuel
  induction fuel with
  | zero => intro i b; rfl
  | succ fuel ih =>
    intro i b
    cases ho : o i with
    | success r => exact absurd ho (h i r)
    | rateLimited => simpa [fetchGo, ho] using ih (i + 1) (nextBackoff b)
    | serverError => simpa [fetchGo, ho] using ih (i + 1) (nextBackoff b)
    | requestError =>
      by_cases hf : fuel = 0
      · simp [fetchGo, ho, hf]
      · simpa [fetchGo, ho, hf] using ih (i + 1) (nextBackoff b)

/-- C6: when no attempt ever succeeds — whether the attempts are
transport-level exceptions, 429s, or 5xx responses — `fetch_bbox` returns
the explicit no-data signal `none` instead of raising, and the caller's
accumulation simply skips such a bounding box, continuing with the rest. -/
theorem C6_exhaustion_returns_none (o : Nat → AttemptResult)
    (h : ∀ i r, o i ≠ AttemptResult.success r)
    (rest : List (Option Response)) :
    (fetch_bbox o).result = none ∧
    all_results (none :: rest) = all_results rest := by
  refine ⟨fetchGo_result_none o h 8 1 5, ?_⟩
  simp [all_results, List.filterMap_cons]

/-- Witness for C6: an attempt stream that always raises a transport
error. -/
theorem C6_exhaustion_returns_none_witness :
    (fetch_bbox fun _ => AttemptResult.requestError).result = none ∧
    all_results (none :: []) = all_results [] :=
  C6_exhaustion_returns_none (fun _ => AttemptResult.requestError)
    (fun i r hir => by cases hir) []

/-! ### Dictionary semantics for deduplication -/

/-- Lookup in the insertion-ordered dict: the value at the first entry
holding key `k`. -/
def dlookup (d : List (String × Camera)) (k : String) : Option Camera :=
  (d.find? (fun p => decide (p.1 = k))).map Prod.snd

/-- The last camera in `cams` whose id is `k`, if any. -/
def lastWith (cams : List Camera) (k : String) : Option Camera :=
  (cams.filter (fun c => decide (c.id = k))).getLast?

theorem dictInsert_lookup (d : List (String × Camera)) (k : String) (v : Camera)
    (k' : String) :
    dlookup (dictInsert d k v) k' = if k' = k then some v else dlookup d k' := by
  induction d with
  | nil =>
    by_cases h : k' = k
    · simp [dictInsert, dlookup, List.find?, h]
    · have h' : ¬(k = k') := fun hc => h hc.symm
      simp [dictInsert, dlookup, List.find?, h, h']
  | cons p d ih =>
    by_cases hp : p.1 = k
    · by_cases h : k' = k
      · simp [dictInsert, hp, dlookup, List.find?, h]
      · have h' : ¬(k = k') := fun hc => h hc.symm
        have hpk : ¬(p.1 = k') := fun hc => h (hc ▸ hp.symm ▸ rfl)
        simp [dictInsert, hp, dlookup, List.find?, h, h', hpk]
    · by_cases hpk : p.1 = k'
      · have h : ¬(k' = k) := fun hc => hp (hpk.symm ▸ hc ▸ rfl)
        simp [dictInsert, hp, dlookup, List.find?, hpk, h]
      · simpa [dictInsert, hp, dlookup, List.find?, hpk] using ih

theorem dictInsert_keys (d : List (String × Camera)) (k : String) (v : Camera) :
    (dictInsert d k v).map Prod.fst =
      if k ∈ d.map Prod.fst then d.map Prod.fst else d.map Prod.fst ++ [k] := by
  induction d with
  | nil => simp [dictInsert]
  | cons p d ih =>
    by_cases hp : p.1 = k
    · simp [dictInsert, hp]
    · have hkp : ¬(k = p.1) := fun h => hp h.symm
      by_cases hm : k ∈ d.map Prod.fst <;> simp [dictInsert, hp, hm, ih, hkp]

theorem dictInsert_mem (d : List (String × Camera)) (k : String) (v : Camera)
    (p : String × Camera) (hp : p ∈ dictInsert d k v) : p = (k, v) ∨ p ∈ d := by
  induction d with
  | nil => simpa [dictInsert] using hp
  | cons q d ih =>
    by_cases hq : q.1 = k
    · rcases List.mem_cons.mp (by simpa [dictInsert, hq] using hp) with h | h
      · exact Or.inl h
      · exact Or.inr (List.mem_cons_of_mem q h)
    · rcases List.mem_cons.mp (by simpa [dictInsert, hq] using hp) with h | h
      · exact Or.inr (h ▸ List.mem_cons_self q d)
      · rcases ih h with h' | h'
        · exact Or.inl h'
        · exact Or.inr (List.mem_cons_of_mem q h')

theorem dedupDict_concat (cams : List Camera) (a : Camera) :
    dedupDict (cams ++ [a]) =
      if a.id = "" then dedupDict cams else dictInsert (dedupDict cams) a.id a := by
  simp [dedupDict, List.foldl_append]

theorem dedupDict_ids (cams : List Camera) :
    ∀ p ∈ dedupDict cams, p.2.id = p.1 ∧ p.1 ≠ "" := by
  induction cams using List.reverseRecOn with
  | nil => simp [dedupDict]
  | append_singleton l a ih =>
    intro p hp
    rw [dedupDict_concat] at hp
    by_cases ha : a.id = ""
    · exact ih p (by simpa [ha] using hp)
    · rcases dictInsert_mem _ _ _ p (by simpa [ha] using hp) with h | h
      · exact ⟨h ▸ rfl, h ▸ ha⟩
      · exact ih p h

theorem dedupDict_keys_nodup (cams : List Camera) :
    ((dedupDict cams).map Prod.fst).Nodup := by
  induction cams using List.reverseRecOn with
  | nil => simp [dedupDict]
  | append_singleton l a ih =>
    rw [dedupDict_concat]
    by_cases ha : a.id = ""
    · simpa [ha] using ih
    · rw [if_neg ha, dictInsert_keys]
      by_cases hm : a.id ∈ (dedupDict l).map Prod.fst
      · simpa [hm] using ih
      · simpa [hm, List.nodup_append] using ih

theorem dedupDict_lookup (cams : List Camera) (k : String) (hk : k ≠ "") :
    dlookup (dedupDict cams) k = lastWith cams k := by
  induction cams using List.reverseRecOn with
  | nil => simp [dedupDict, dlookup, lastWith]
  | append_singleton l a ih =>
    rw [dedupDict_concat, lastWith, List.filter_append]
    by_cases ha : a.id = ""
    · have hak : ¬("" = k) := fun h => hk h.symm
      simpa [ha, hak, lastWith] using ih
    · rw [if_neg ha, dictInsert_lookup]
      by_cases hak : a.id = k
      · simp [hak, List.getLast?_concat]
      · have h : ¬(k = a.id) := fun h => hak h.symm
        simpa [h, hak, lastWith] using ih

theorem filter_values_nil (d : List (String × Camera)) (k : String)
    (hk : k ∉ d.map Prod.fst) (hids : ∀ p ∈ d, p.2.id = p.1) :
    (d.map Prod.snd).filter (fun c => decide (c.id = k)) = [] := by
  induction d with
  | nil => rfl
  | cons p d ih =>
    have hpk : ¬(p.2.id = k) := by
      rw [hids p (List.mem_cons_self p d)]
      exact fun h => hk (h ▸ List.mem_cons_self p.1 (d.map Prod.fst))
    have hk' : k ∉ d.map Prod.fst := fun h => hk (List.mem_cons_of_mem p.1 h)
    simpa [hpk] using ih hk' fun q hq => hids q (List.mem_cons_of_mem p hq)

theorem filter_values_eq_dlookup (d : List (String × Camera)) (k : String)
    (hnodup : (d.map Prod.fst).Nodup) (hids : ∀ p ∈ d, p.2.id = p.1) :
    (d.map Prod.snd).filter (fun c => decide (c.id = k)) = (dlookup d k).toList := by
  induction d with
  | nil => rfl
  | cons p d ih =>
    rw [List.map_cons] at hnodup
    obtain ⟨hnotmem, hnodup'⟩ := List.nodup_cons.mp hnodup
    have hid : p.2.id = p.1 := hids p (List.mem_cons_self p d)
    have hids' : ∀ q ∈ d, q.2.id = q.1 := fun q hq => hids q (List.mem_cons_of_mem p hq)
    by_cases hp : p.1 = k
    · have hrest : (d.map Prod.snd).filter (fun c => decide (c.id = k)) = [] :=
        filter_values_nil d k (hp ▸ hnotmem) hids'
      simp [dlookup, List.find?, hp, hid, hrest]
    · have hpk : ¬(p.2.id = k) := hid ▸ hp
      simpa [dlookup, List.find?, hp, hpk] using ih hnodup' hids'

theorem dlookup_of_mem (d : List (String × Camera)) (p : String × Camera)
    (hp : p ∈ d) (hnodup : (d.map Prod.fst).Nodup) : dlookup d p.1 = some p.2 := by
  induction d with
  | nil => cases hp
  | cons q d ih =>
    rw [List.map_cons] at hnodup
    obtain ⟨hnotmem, hnodup'⟩ := List.nodup_cons.mp hnodup
    rcases List.mem_cons.mp hp with h | h
    · simp [dlookup, List.find?, h]
    · have hq : ¬(q.1 = p.1) := fun hc =>
        hnotmem (hc ▸ List.mem_map_of_mem Prod.fst h)
      simpa [dlookup, List.find?, hq] using ih h hnodup'

/-! ### C2: last occurrence wins -/

/-- C2: deduplication keys the records by identifier with the last
occurrence winning: for any (non-falsy) identifier `k`, the deduplicated
result set holds exactly the last accumulated entry with that identifier
— exactly one entry when `k` occurs at all, none otherwise. -/
theorem C2_last_occurrence_wins (cams : List Camera) (k : String) (hk : k ≠ "") :
    (unique_results cams).filter (fun c => decide (c.id = k)) =
      ((cams.filter (fun c => decide (c.id = k))).getLast?).toList := by
  rw [unique_results,
    filter_values_eq_dlookup (dedupDict cams) k (dedupDict_keys_nodup cams)
      (fun p hp => (dedupDict_ids cams p hp).1),
    dedupDict_lookup cams k hk]
  rfl

/-- Witness for C2: two cameras sharing id `"osm-1"`; the deduplicated set
keeps exactly the second one's field values. -/
theorem C2_last_occurrence_wins_witness :
    (unique_results [⟨"osm-1", none, none, "fixed_camera", 80⟩,
        ⟨"osm-1", some 2, some 3, "mobile_possible_camera", 60⟩]).filter
        (fun c => decide (c.id = "osm-1")) =
      (([⟨"osm-1", none, none, "fixed_camera", 80⟩,
          (⟨"osm-1", some 2, some 3, "mobile_possible_camera", 60⟩ : Camera)].filter
          (fun c => decide (c.id = "osm-1"))).getLast?).toList :=
  C2_last_occurrence_wins
    [⟨"osm-1", none, none, "fixed_camera", 80⟩,
      ⟨"osm-1", some 2, some 3, "mobile_possible_camera", 60⟩] "osm-1" (by decide)

/-! ### C9: insertion order of the deduplicated list -/

/-- The identifiers of `cams` in order of first occurrence, skipping
falsy (empty) ids — the key order a Python dict built left-to-right
enumerates. -/
def firstKeys (cams : List Camera) : List String :=
  cams.foldl (fun ks c => if c.id ≠ "" ∧ c.id ∉ ks then ks ++ [c.id] else ks) []

theorem firstKeys_concat (cams : List Camera) (a : Camera) :
    firstKeys (cams ++ [a]) =
      if a.id ≠ "" ∧ a.id ∉ firstKeys cams then firstKeys cams ++ [a.id]
      else firstKeys cams := by
  simp [firstKeys, List.foldl_append]

theorem dedupDict_keys_eq_firstKeys (cams : List Camera) :
    (dedupDict cams).map Prod.fst = firstKeys cams := by
  induction cams using List.reverseRecOn with
  | nil => simp [dedupDict, firstKeys]
  | append_singleton l a ih =>
    rw [dedupDict_concat, firstKeys_concat, ← ih]
    by_cases ha : a.id = ""
    · simp [ha]
    · by_cases hm : a.id ∈ (dedupDict l).map Prod.fst <;>
        simp [ha, hm, dictInsert_keys]

/-- C9: deduplication enumerates identifiers in the order of each
identifier's first occurrence in the accumulated list, and each surviving
entry carries the field values of its identifier's last occurrence — a
stronger guarantee than the spec's "arbitrary order". -/
theorem C9_first_occurrence_order (cams : List Camera) :
    (unique_results cams).map Camera.id = firstKeys cams ∧
    ∀ c ∈ unique_results cams,
      (cams.filter (fun x => decide (x.id = c.id))).getLast? = some c := by
  constructor
  · rw [unique_results, List.map_map, ← dedupDict_keys_eq_firstKeys]
    exact List.map_congr_left fun p hp => (dedupDict_ids cams p hp).1
  · intro c hc
    obtain ⟨p, hp, hpc⟩ := List.mem_map.mp hc
    obtain ⟨hid, hne⟩ := dedupDict_ids cams p hp
    have hl : dlookup (dedupDict cams) p.1 = some p.2 :=
      dlookup_of_mem (dedupDict cams) p hp (dedupDict_keys_nodup cams)
    have : lastWith cams c.id = some c := by
      rw [← hpc, hid, ← dedupDict_lookup cams p.1 hne]
      exact hl
    simpa [lastWith] using this

/-- Witness for C9 on a concrete two-camera list. -/
theorem C9_first_occurrence_order_witness :
    (unique_results [⟨"osm-1", none, none, "fixed_camera", 80⟩,
        ⟨"osm-2", none, none, "mobile_possible_camera", 60⟩]).map Camera.id =
      firstKeys [⟨"osm-1", none, none, "fixed_camera", 80⟩,
        ⟨"osm-2", none, none, "mobile_possible_camera", 60⟩] ∧
    ([⟨"osm-1", none, none, "fixed_camera", 80⟩,
        (⟨"osm-2", none, none, "mobile_possible_camera", 60⟩ : Camera)].filter
        (fun x => decide (x.id = (⟨"osm-1", none, none, "fixed_camera", 80⟩ : Camera).id))).getLast? =
      some ⟨"osm-1", none, none, "fixed_camera", 80⟩ :=
  ⟨(C9_first_occurrence_order [⟨"osm-1", none, none, "fixed_camera", 80⟩,
      ⟨"osm-2", none, none, "mobile_possible_camera", 60⟩]).1,
    (C9_first_occurrence_order [⟨"osm-1", none, none, "fixed_camera", 80⟩,
      ⟨"osm-2", none, none, "mobile_possible_camera", 60⟩]).2
      ⟨"osm-1", none, none, "fixed_camera", 80⟩ (by decide)⟩

/-! ### C10: totality of normalization over arbitrary raw shapes -/

theorem foldl_dictInsert_no_filter (cams : List Camera)
    (h : ∀ c ∈ cams, c.id ≠ "") (d : List (String × Camera)) :
    cams.foldl (fun d cam => if cam.id = "" then d else dictInsert d cam.id cam) d =
      cams.foldl (fun d cam => dictInsert d cam.id cam) d := by
  induction cams generalizing d with
  | nil => rfl
  | cons a l ih =>
    have ha : ¬(a.id = "") := h a (List.mem_cons_self a l)
    simp only [List.foldl_cons, if_neg ha]
    exact ih (fun c hc => h c (List.mem_cons_of_mem a hc)) _

/-- C10: normalization is total over arbitrary raw shapes: a missing
`tags` key classifies as `mobile_possible_camera`/60, a missing `id` key
still yields a non-empty `"osm-"`-prefixed identifier (and so does every
element), a response body without `elements` contributes no records, and
on any list of cameras with non-falsy ids — as all normalized cameras are
— the dedup comprehension's truthiness filter discards nothing. -/
theorem C10_totality :
    (∀ e : RawElement, e.tags = none →
      (normalizeElement e).type = "mobile_possible_camera" ∧
        (normalizeElement e).confidence = 60) ∧
    (∀ e : RawElement,
      (normalizeElement e).id = "osm-" ++ pyStrOptInt e.id ∧
        (normalizeElement e).id ≠ "") ∧
    ((normalizeElement ⟨none, none, none, none⟩).id = "osm-None") ∧
    (∀ r : Response, r.elements = none → extractCameras r = []) ∧
    (∀ cams : List Camera, (∀ c ∈ cams, c.id ≠ "") →
      dedupDict cams = cams.foldl (fun d cam => dictInsert d cam.id cam) []) := by
  refine ⟨fun e he => ?_, fun e => ?_, by decide, fun r hr => ?_, fun cams h => ?_⟩
  · simp [normalizeElement, he, tagGet, CONF_MOBILE_POSSIBLE]
  · constructor
    · rw [tagGet_fixed_or_not]
      by_cases h : tagGet (e.tags.getD []) "highway" = some "speed_camera" <;> simp [h]
    · have hid : (normalizeElement e).id = "osm-" ++ pyStrOptInt e.id := by
        rw [tagGet_fixed_or_not]
        by_cases h : tagGet (e.tags.getD []) "highway" = some "speed_camera" <;> simp [h]
      rw [hid]
      exact osm_append_ne_empty (pyStrOptInt e.id)
  · simp [extractCameras, hr]
  · exact foldl_dictInsert_no_filter cams h []

/-- Witness for C10 at a tagless element, an `elements`-less response and
a concrete camera list. -/
theorem C10_totality_witness :
    ((normalizeElement ⟨some 5, none, none, none⟩).type = "mobile_possible_camera" ∧
      (normalizeElement ⟨some 5, none, none, none⟩).confidence = 60) ∧
    extractCameras ⟨none⟩ = [] ∧
    dedupDict [⟨"osm-5", none, none, "fixed_camera", 80⟩] =
      [⟨"osm-5", none, none, "fixed_camera", 80⟩].foldl
        (fun d cam => dictInsert d cam.id cam) [] :=
  ⟨C10_totality.1 ⟨some 5, none, none, none⟩ rfl,
    C10_totality.2.2.2.1 ⟨none⟩ rfl,
    C10_totality.2.2.2.2 [⟨"osm-5", none, none, "fixed_camera", 80⟩] (by decide)⟩

end OsmCameras
